import Mathlib

/-!
Verification of the Perl::Critic → SARIF converter (`src/main.rs`).

The Rust source is shallowly embedded below.  Strings are Lean `String`s
(lists of characters); Rust `u32` arithmetic is modelled on `Nat` with an
explicit reduction modulo `2^32` exactly where the source performs wrapping
arithmetic (release semantics of `u32` subtraction/addition and of the
`as u32` cast).  Fallible Rust code (`Result`) becomes `Except String`.
-/

/-- 2^32, the modulus of Rust `u32` arithmetic. -/
def u32Mod : Nat := 4294967296

/-- Wrapping `u32` decrement, the embedding of the Rust expression
`v.line_number - 1` on `u32` (release semantics: wrap-around). -/
def u32SubOne (n : Nat) : Nat := (n + (u32Mod - 1)) % u32Mod

/-- Wrapping `u32` increment, the embedding of `v.line_number + 1` on `u32`. -/
def u32AddOne (n : Nat) : Nat := (n + 1) % u32Mod

/-- UTF-8 byte length of a string: the embedding of Rust `str::len`
(`String::len` counts UTF-8 bytes, not characters). -/
def utf8Len (s : String) : Nat := (s.toList.map Char.utf8Size).sum

/-- Input record `Violation` from `src/main.rs` (serde-decoded).
`line_number`, `column_number` are `u32` and `severity` is `u8` in the
source; they are carried as `Nat` here, with the `u32` bounds appearing as
hypotheses where the arithmetic depends on them. -/
structure Violation where
  filename : String
  line_number : Nat
  column_number : Nat
  severity : Nat
  source : String
  diagnostics : String
  explanation : String
  description : String
  policy : String
deriving DecidableEq

/-- Input aggregate `PerlCriticReport` from `src/main.rs`. -/
structure PerlCriticReport where
  perl_critic_version : String
  violations : List Violation
deriving DecidableEq

/-- First index (if any) at which `sep` occurs as a contiguous sublist of
`cs`; the leftmost-occurrence search of Rust `str::split`. -/
def firstOcc (sep : List Char) : List Char → Option Nat
  | [] => if sep = [] then some 0 else none
  | c :: cs => if sep.isPrefixOf (c :: cs) then some 0 else (firstOcc sep cs).map (· + 1)

/-- Fuel-driven worker for `rustSplit`. -/
def rustSplitAux (sep : List Char) : Nat → List Char → List (List Char)
  | 0, cs => [cs]
  | fuel + 1, cs =>
    match firstOcc sep cs with
    | none => [cs]
    | some k => cs.take k :: rustSplitAux sep fuel (cs.drop (k + sep.length))

/-- Embedding of Rust `str::split(sep)` for a non-empty separator:
split at every non-overlapping leftmost occurrence of `sep`, keeping empty
segments (so `"".split("::") = [""]`, `"a::".split("::") = ["a", ""]`). -/
def rustSplit (sep : List Char) (cs : List Char) : List (List Char) :=
  rustSplitAux sep (cs.length + 1) cs

/-- The segments `policy.split("::")` used by `policy_to_id` and
`policy_to_name` in `src/main.rs`. -/
def policySegments (policy : String) : List (List Char) :=
  rustSplit [':', ':'] policy.toList

/-- Embedding of Rust `c.to_lowercase().next().unwrap()` as used in
`camel_to_snake`, at the ASCII alphabet of Perl::Critic policy names
(on ASCII, Rust lowercasing adds 32 to an uppercase letter and leaves
every other character unchanged). -/
def lowerChar (c : Char) : Char :=
  if c.isUpper then Char.ofNat (c.toNat + 32) else c

/-- Character loop of `camel_to_snake` in `src/main.rs`: `i` is the
enumeration index; an uppercase character is lowercased and, when not at
index 0, preceded by an underscore; other characters pass through. -/
def camelSnakeAux : Nat → List Char → List Char
  | _, [] => []
  | i, c :: cs =>
    (if c.isUpper then (if 0 < i then ['_', lowerChar c] else [lowerChar c]) else [c])
      ++ camelSnakeAux (i + 1) cs

/-- `camel_to_snake` from `src/main.rs`. -/
def camel_to_snake (s : String) : String := String.mk (camelSnakeAux 0 s.toList)

/-- `Vec::join("/")` on character lists: the `.join("/")` of `policy_to_id`. -/
def intercalateSlash : List (List Char) → List Char
  | [] => []
  | [x] => x
  | x :: y :: xs => x ++ '/' :: intercalateSlash (y :: xs)

/-- `policy_to_id` from `src/main.rs`: split on `"::"`, skip 4 segments,
snake-case each remaining segment, join with `/`, prefix `perl/`. -/
def policy_to_id (policy : String) : String :=
  "perl/" ++ String.mk
    (intercalateSlash (((policySegments policy).drop 4).map
      (fun seg => (camel_to_snake (String.mk seg)).toList)))

/-- `policy_to_name` from `src/main.rs`: split on `"::"`, skip 4 segments,
concatenate with no separator. -/
def policy_to_name (policy : String) : String :=
  String.mk ((policySegments policy).drop 4).flatten

/-- SARIF `ArtifactLocation` (the fields set by the source). -/
structure ArtifactLocation where
  uri : String
  uri_base_id : String
deriving DecidableEq

/-- SARIF `ArtifactContent` (snippet payload). -/
structure ArtifactContent where
  text : String
deriving DecidableEq

/-- SARIF `Region` (the fields set by the source). -/
structure Region where
  start_line : Nat
  start_column : Nat
  end_line : Nat
  end_column : Nat
  snippet : ArtifactContent
deriving DecidableEq

/-- SARIF `PhysicalLocation` (the fields set by the source). -/
structure PhysicalLocation where
  artifact_location : ArtifactLocation
  context_region : Region
  region : Region
deriving DecidableEq

/-- SARIF `Location`. -/
structure Location where
  physical_location : PhysicalLocation
deriving DecidableEq

/-- SARIF `Result` (the fields set by the source). -/
structure SarifResult where
  message : String
  level : String
  rule_id : String
  locations : List Location
deriving DecidableEq

/-- The `match v.severity` expression of `TryFrom<Violation> for Result`
in `src/main.rs`. -/
def severityLevel (sev : Nat) : String :=
  match sev with
  | 5 => "error"
  | 4 => "warning"
  | 3 => "note"
  | _ => "none"

/-- Embedding of `TryFrom<Violation> for Result` from `src/main.rs`.
Every builder in the source sets all required fields, so each `build()`
returns `Ok`; the translation is therefore a total function here.
`v.line_number - 1`, `v.line_number + 1` and `v.source.len() as u32` are
`u32` operations and are reduced modulo `2^32`. -/
def violationToResult (v : Violation) : SarifResult :=
  { message := v.diagnostics
    level := severityLevel v.severity
    rule_id := policy_to_id v.policy
    locations := [
      { physical_location :=
        { artifact_location :=
            { uri := "project/" ++ v.filename, uri_base_id := "PROJECT" }
          context_region :=
            { start_line := u32SubOne v.line_number
              start_column := 1
              end_line := u32AddOne v.line_number
              end_column := 1
              snippet := { text := v.source } }
          region :=
            { start_line := v.line_number
              start_column := v.column_number
              end_line := v.line_number
              end_column := utf8Len v.source % u32Mod
              snippet := { text := v.source } } } } ] }

/-- SARIF `ReportingDescriptor` (the fields set by the source). -/
structure ReportingDescriptor where
  id : String
  name : String
  help_uri : String
deriving DecidableEq

/-- The `ReportingDescriptor` built from one violation inside
`PerlCriticReport::rules`: id and name derived from the policy, help URI
templated from the *original* policy string. -/
def violationDescriptor (v : Violation) : ReportingDescriptor :=
  { id := policy_to_id v.policy
    name := policy_to_name v.policy
    help_uri := "https://metacpan.org/pod/" ++ v.policy }

/-- Key-value insert with overwrite: the behaviour of `HashMap::insert`
(and hence of `collect::<HashMap<_,_>>`) on one `(key, value)` pair —
an existing entry for the key is replaced, otherwise the entry is new. -/
def assocUpsert (k : String) (d : ReportingDescriptor) :
    List (String × ReportingDescriptor) → List (String × ReportingDescriptor)
  | [] => [(k, d)]
  | (k1, d1) :: m => if k1 = k then (k, d) :: m else (k1, d1) :: assocUpsert k d m

/-- One step of the `collect::<HashMap>` of `PerlCriticReport::rules`:
insert the descriptor of violation `v` under its derived id. -/
def rulesStep (m : List (String × ReportingDescriptor)) (v : Violation) :
    List (String × ReportingDescriptor) :=
  assocUpsert (policy_to_id v.policy) (violationDescriptor v) m

/-- The id → descriptor map built by `PerlCriticReport::rules` from the
violation list (the source collects into a `HashMap`, whose duplicate-key
semantics is overwrite/last-wins; the map is represented as an association
list with unique keys — `HashMap` iteration order is unspecified in Rust,
and no claim depends on the order of the catalogue). -/
def rulesMap (vs : List Violation) : List (String × ReportingDescriptor) :=
  vs.foldl rulesStep []

/-- `PerlCriticReport::rules` from `src/main.rs`: the values of the map. -/
def PerlCriticReport.rules (r : PerlCriticReport) : List ReportingDescriptor :=
  (rulesMap r.violations).map Prod.snd

/-- SARIF `VersionControlDetails` (the fields set by the source). -/
structure VersionControlDetails where
  repository_uri : String
  branch : String
  revision_id : String
  mapped_to : ArtifactLocation
deriving DecidableEq

/-- SARIF `ToolComponent` (driver; the fields set by the source). -/
structure ToolComponent where
  name : String
  full_name : String
  version : String
  information_uri : String
  rules : List ReportingDescriptor
deriving DecidableEq

/-- SARIF `Tool`. -/
structure Tool where
  driver : ToolComponent
deriving DecidableEq

/-- SARIF `Run` (the fields set by the source). -/
structure Run where
  tool : Tool
  version_control_provenance : List VersionControlDetails
  results : List SarifResult
deriving DecidableEq

/-- SARIF top-level document (the fields set by the source). -/
structure Sarif where
  runs : List Run
  schema : String
  version : String
deriving DecidableEq

/-- Embedding of `TryFrom<PerlCriticReport> for Run`.  The provenance
block comes from `version_control_provenance()`, which reads the ambient
git repository; its outcome is passed in as an `Except` value.  All other
builder steps set every required field and succeed. -/
def reportToRunE (report : PerlCriticReport)
    (vcs : Except String (List VersionControlDetails)) : Except String Run :=
  match vcs with
  | .error e => .error e
  | .ok p =>
    .ok
      { tool :=
          { driver :=
              { name := "Perl Critic"
                full_name := "Perl::Critic"
                version := report.perl_critic_version
                information_uri := "https://metacpan.org/pod/Perl::Critic"
                rules := report.rules } }
        version_control_provenance := p
        results := report.violations.map violationToResult }

/-- Embedding of `TryFrom<PerlCriticReport> for Sarif`. -/
def reportToSarifE (report : PerlCriticReport)
    (vcs : Except String (List VersionControlDetails)) : Except String Sarif :=
  match reportToRunE report vcs with
  | .error e => .error e
  | .ok run =>
    .ok
      { runs := [run]
        schema := "https://raw.githubusercontent.com/oasis-tcs/sarif-spec/master/Schemata/sarif-schema-2.1.0.json"
        version := "2.1.0" }

/-! ### Remote URL normalization (`git_remote_to_public_url`)

The source matches the remote against two `regex` patterns, the SSH shape
first:

  `ssh_re  = (?P<user>[^@]+@)?(?P<host>[^:]+):(?P<repo>.+).git`
  `http_re = https?://(?P<host>[^/]+)/(?P<repo>.+).git`

Both are *unanchored* and the `regex` crate uses leftmost-first
(Perl-like) match semantics.  The matchers below implement exactly those
two patterns: match attempts start at each position from the left; at a
given position the optional group is tried present-first; `[^x]+`
followed by the literal `x` is forced to the first `x`; the greedy `.+`
followed by `.` (any character except newline) and the literal `git`
selects the rightmost viable `git` occurrence.  Captures `host`/`repo`
are returned. -/

/-- Split `cs` at the first occurrence of `c`: `some (before, after)` with
`before` free of `c`, or `none` when `c` does not occur.  This is the
forced match of the regex fragment `[^c]+c` (with `before ≠ []`). -/
def splitAtFirst (c : Char) : List Char → Option (List Char × List Char)
  | [] => none
  | x :: xs =>
    if x = c then some ([], xs)
    else (splitAtFirst c xs).map (fun p => (x :: p.1, p.2))

/-- Length of the maximal newline-free prefix: how far `.+` can reach. -/
def dotRun (cs : List Char) : Nat := (cs.takeWhile (fun c => c ≠ '\n')).length

/-- Does the literal `git` occur at index `i` of `cs`? -/
def isGitAt (cs : List Char) (i : Nat) : Bool :=
  (cs.drop i).take 3 = ['g', 'i', 't']

/-- Anchored match of the regex fragment `(?P<repo>.+).git`: the greedy
`.+` picks the largest `i ≥ 2` with `git` at index `i` and the first `i`
characters (the `.+` part and the single `.`) newline-free; the capture is
the first `i - 1` characters. -/
def repoGitMatch (cs : List Char) : Option (List Char) :=
  (((List.range cs.length).filter
      (fun i => 2 ≤ i && i ≤ dotRun cs && isGitAt cs i)).getLast?).map
    (fun i => cs.take (i - 1))

/-- Anchored match of `(?P<host>[^:]+):(?P<repo>.+).git` at the head of
`cs`. -/
def hostRepoMatch (cs : List Char) : Option (List Char × List Char) :=
  match splitAtFirst ':' cs with
  | none => none
  | some (host, rest) =>
    if host = [] then none
    else (repoGitMatch rest).map (fun repo => (host, repo))

/-- Anchored match of the whole SSH pattern at the head of `cs`: the
optional `(?P<user>[^@]+@)?` is tried present-first, falling back to the
group being absent. -/
def sshAt (cs : List Char) : Option (List Char × List Char) :=
  match splitAtFirst '@' cs with
  | some (user, rest) =>
    if user = [] then hostRepoMatch cs
    else
      match hostRepoMatch rest with
      | some r => some r
      | none => hostRepoMatch cs
  | none => hostRepoMatch cs

/-- Unanchored (leftmost) search with the SSH pattern: `Regex::captures`
returns the match starting at the leftmost viable position. -/
def sshFind : List Char → Option (List Char × List Char)
  | [] => none
  | c :: cs =>
    match sshAt (c :: cs) with
    | some r => some r
    | none => sshFind cs

/-- Anchored match of the HTTP pattern after the literal `http` and
optional `s`: `://(?P<host>[^/]+)/(?P<repo>.+).git`. -/
def httpTail (cs : List Char) : Option (List Char × List Char) :=
  match cs with
  | ':' :: '/' :: '/' :: rest =>
    (match splitAtFirst '/' rest with
     | none => none
     | some (host, rest2) =>
       if host = [] then none
       else (repoGitMatch rest2).map (fun repo => (host, repo)))
  | _ => none

/-- Anchored match of the whole HTTP pattern at the head of `cs`
(`https?` tries the `s` present-first). -/
def httpAt (cs : List Char) : Option (List Char × List Char) :=
  match cs with
  | 'h' :: 't' :: 't' :: 'p' :: rest =>
    (match rest with
     | 's' :: rest2 =>
       (match httpTail rest2 with
        | some r => some r
        | none => httpTail rest)
     | _ => httpTail rest)
  | _ => none

/-- Unanchored (leftmost) search with the HTTP pattern. -/
def httpFind : List Char → Option (List Char × List Char)
  | [] => none
  | c :: cs =>
    match httpAt (c :: cs) with
    | some r => some r
    | none => httpFind cs

/-- `git_remote_to_public_url` from `src/main.rs`: try the SSH pattern,
fall back to the HTTP pattern (`or_else`), and rebuild
`https://{host}/{repo}` from the captures; error when neither matches.
(In a successful match both named groups are necessarily present, so the
source's second failure arm is unreachable.) -/
def git_remote_to_public_url (remote : String) : Except String String :=
  match sshFind remote.toList with
  | some (host, repo) =>
    .ok ("https://" ++ String.mk host ++ "/" ++ String.mk repo)
  | none =>
    match httpFind remote.toList with
    | some (host, repo) =>
      .ok ("https://" ++ String.mk host ++ "/" ++ String.mk repo)
    | none => .error "Could not parse remote"

/-- Embedding of `main` from `src/main.rs` as its stage pipeline: open and
read the input (`inp`), serde-decode it (`dec`, applied to the input
text), translate and assemble (with the git provenance outcome `vcs`).
Each `?` of the source is a `match` propagating the error; the `Ok`
payload is the document handed to the final `serde_json::to_writer` —
nothing is emitted in any error case. -/
def mainModel (inp : Except String String)
    (dec : String → Except String PerlCriticReport)
    (vcs : Except String (List VersionControlDetails)) : Except String Sarif :=
  match inp with
  | .error e => .error e
  | .ok text =>
    match dec text with
    | .error e => .error e
    | .ok report => reportToSarifE report vcs

/-- A concrete violation used to instantiate several theorems. -/
def exampleViolation : Violation :=
  { filename := "lib/Foo.pm"
    line_number := 10
    column_number := 4
    severity := 5
    source := "my $x = 1;"
    diagnostics := "diagnostics text"
    explanation := "explanation text"
    description := "description text"
    policy := "Perl::Critic::Policy::Variables::ProhibitLocalVars" }

/-- A concrete report with no violations, for instantiating theorems. -/
def emptyReport : PerlCriticReport :=
  { perl_critic_version := "1.2.3", violations := [] }

/-- The run assembled from `emptyReport` with an empty provenance list. -/
def emptyRun : Run :=
  { tool :=
      { driver :=
          { name := "Perl Critic"
            full_name := "Perl::Critic"
            version := "1.2.3"
            information_uri := "https://metacpan.org/pod/Perl::Critic"
            rules := [] } }
    version_control_provenance := []
    results := [] }

/-- A violation whose `line_number` is the largest `u32`, where the
source's `v.line_number + 1` wraps. -/
def overflowViolation : Violation :=
  { exampleViolation with line_number := 4294967295 }

/-- A violation whose source line contains a multi-byte character
(`é` is 2 UTF-8 bytes, 1 character). -/
def multibyteViolation : Violation :=
  { exampleViolation with source := "é" }

/-- A source line of 2^32 single-byte characters, where the source's
`v.source.len() as u32` cast truncates to 0. -/
def hugeSource : String := String.mk (List.replicate 4294967296 'a')

/-- A violation carrying `hugeSource`. -/
def hugeViolation : Violation := { exampleViolation with source := hugeSource }

/-- Two violations with distinct policy strings deriving the same
identifier `perl/foo_bar`. -/
def collidingViolationA : Violation :=
  { exampleViolation with policy := "Aaa::Bbb::Ccc::Ddd::FooBar" }

/-- See `collidingViolationA`; processed second, so its descriptor wins. -/
def collidingViolationB : Violation :=
  { exampleViolation with
      policy := "Xxx::Yyy::Zzz::Www::FooBar"
      description := "a different violation" }

/-- Report holding the two colliding violations. -/
def collidingReport : PerlCriticReport :=
  { perl_critic_version := "1.2.3"
    violations := [collidingViolationA, collidingViolationB] }

/-! ## Spec-side definitions for the refinement claim C3

These two definitions follow the *spec's words* (identifier derivation in
§4.2), to be compared with `camel_to_snake` / `policy_to_id`, which were
translated from the source. -/

/-- Spec's wording, first half: "inserting an underscore before every
uppercase letter that is not the first character of the segment". -/
def underscoreAux : Nat → List Char → List Char
  | _, [] => []
  | i, c :: cs =>
    (if c.isUpper ∧ 0 < i then ['_', c] else [c]) ++ underscoreAux (i + 1) cs

/-- Spec's wording for the segment conversion: insert underscores before
non-initial uppercase letters, "then lowercasing all letters". -/
def camel_to_snake_spec (s : String) : String :=
  String.mk ((underscoreAux 0 s.toList).map lowerChar)

/-- Spec's wording for identifier derivation: drop the first 4
`::`-separated segments, convert each remaining segment with
`camel_to_snake_spec`, join with `/`, prefix `perl/`. -/
def policy_to_id_spec (policy : String) : String :=
  "perl/" ++ String.mk
    (intercalateSlash (((policySegments policy).drop 4).map
      (fun seg => (camel_to_snake_spec (String.mk seg)).toList)))

/-! ## Helper lemmas -/

theorem lowerChar_eq_self {c : Char} (h : ¬ c.isUpper) : lowerChar c = c := by
  simp [lowerChar, h]

theorem lowerChar_underscore : lowerChar '_' = '_' := by decide

theorem camelSnakeAux_eq_spec (l : List Char) :
    ∀ i, camelSnakeAux i l = (underscoreAux i l).map lowerChar := by
  induction l with
  | nil => intro i; rfl
  | cons c cs ih =>
    intro i
    by_cases h : c.isUpper
    · by_cases hi : 0 < i
      · simp [camelSnakeAux, underscoreAux, h, hi, ih, lowerChar_underscore]
      · simp [camelSnakeAux, underscoreAux, h, hi, ih]
    · simp [camelSnakeAux, underscoreAux, h, ih, lowerChar_eq_self h]

theorem u32SubOne_eq {n : Nat} (h1 : 1 ≤ n) (h2 : n < u32Mod) :
    u32SubOne n = n - 1 := by
  unfold u32SubOne u32Mod at *
  have h3 : n + (4294967296 - 1) = (n - 1) + 4294967296 := by omega
  rw [h3, Nat.add_mod_right, Nat.mod_eq_of_lt (by omega)]

theorem u32AddOne_eq {n : Nat} (h : n + 1 < u32Mod) : u32AddOne n = n + 1 := by
  unfold u32AddOne
  exact Nat.mod_eq_of_lt h

theorem sum_map_utf8_one (l : List Char) (h : ∀ c ∈ l, c.utf8Size = 1) :
    (l.map Char.utf8Size).sum = l.length := by
  induction l with
  | nil => rfl
  | cons c cs ih =>
    have hc : c.utf8Size = 1 := h c (by simp)
    have hrest : ∀ c2 ∈ cs, c2.utf8Size = 1 := fun c2 hc2 => h c2 (by simp [hc2])
    simp [hc, ih hrest]
    omega

theorem result_end_column (v : Violation) :
    ((violationToResult v).locations.map
      (fun l => l.physical_location.region.end_column)) =
      [utf8Len v.source % u32Mod] := rfl

theorem severityLevel_cases (s : Nat) :
    severityLevel s ∈ (["error", "warning", "note", "none"] : List String) ∧
    (s = 5 → severityLevel s = "error") ∧
    (s = 4 → severityLevel s = "warning") ∧
    (s = 3 → severityLevel s = "note") ∧
    (s ≠ 5 → s ≠ 4 → s ≠ 3 → severityLevel s = "none") := by
  match s with
  | 0 => simp [severityLevel]
  | 1 => simp [severityLevel]
  | 2 => simp [severityLevel]
  | 3 => simp [severityLevel]
  | 4 => simp [severityLevel]
  | 5 => simp [severityLevel]
  | n + 6 => simp [severityLevel]

/-! ## Claims -/

/-- **C1** — the claim is evaluated at its three inputs.  The SSH-style
remote and the unmatched remote behave as claimed, but the HTTP(S)-style
remote `"https://github.com/org/repo.git"` is captured by the unanchored
SSH pattern, which is tried first (its `[^:]+` host group matches the
scheme `"https"` and its repo group matches `"//github.com/org/repo"`),
so the function returns `"https://https///github.com/org/repo"` and not
the claimed `"https://github.com/org/repo"`: the intended HTTP arm of the
source is unreachable for such remotes. -/
theorem git_remote_url_eval :
    git_remote_to_public_url "git@github.com:org/repo.git" =
      Except.ok "https://github.com/org/repo" ∧
    git_remote_to_public_url "https://github.com/org/repo.git" =
      Except.ok "https://https///github.com/org/repo" ∧
    git_remote_to_public_url "https://github.com/org/repo.git" ≠
      Except.ok "https://github.com/org/repo" ∧
    git_remote_to_public_url "not-a-url" = Except.error "Could not parse remote" := by
  refine ⟨rfl, rfl, ?_, rfl⟩
  intro h
  rw [show git_remote_to_public_url "https://github.com/org/repo.git" =
      Except.ok "https://https///github.com/org/repo" from rfl] at h
  injection h with h2
  exact absurd h2 (by decide)

/-- **C3** — identifier derivation: the source's `policy_to_id` agrees
with the derivation stated by the spec (drop 4 segments, underscore before
non-initial uppercase then lowercase, join with `/`, prefix `perl/`) on
every policy string, and the spec's example derives as stated.  Purity and
determinism are inherent: `policy_to_id` is a Lean function of the
string. -/
theorem policy_id_derivation :
    (∀ policy : String, policy_to_id policy = policy_to_id_spec policy) ∧
    policy_to_id "Perl::Critic::Policy::Variables::ProhibitLocalVars" =
      "perl/prohibit_local_vars" := by
  constructor
  · intro policy
    simp only [policy_to_id, policy_to_id_spec, camel_to_snake, camel_to_snake_spec,
      camelSnakeAux_eq_spec]
  · decide

/-- **C5** — severity-to-level mapping is total with range exactly
{error, warning, note, none}: 5→error, 4→warning, 3→note, everything
else→none, as carried into the translated result's `level` field. -/
theorem severity_level_total :
    ∀ v : Violation,
      (violationToResult v).level ∈ (["error", "warning", "note", "none"] : List String) ∧
      (v.severity = 5 → (violationToResult v).level = "error") ∧
      (v.severity = 4 → (violationToResult v).level = "warning") ∧
      (v.severity = 3 → (violationToResult v).level = "note") ∧
      (v.severity ≠ 5 → v.severity ≠ 4 → v.severity ≠ 3 →
        (violationToResult v).level = "none") := by
  intro v
  exact severityLevel_cases v.severity

/-- Witness for C5 at a concrete violation of severity 5. -/
theorem severity_level_total_witness :
    (violationToResult exampleViolation).level = "error" ∧
    (violationToResult exampleViolation).level ∈
      (["error", "warning", "note", "none"] : List String) :=
  ⟨(severity_level_total exampleViolation).2.1 rfl,
   (severity_level_total exampleViolation).1⟩

/-- **C8** — a policy with fewer than 5 `::`-separated segments is not
rejected: the derived identifier is the degenerate `perl/` and the derived
display name is the empty string. -/
theorem short_policy_degenerate :
    ∀ policy : String, (policySegments policy).length < 5 →
      policy_to_id policy = "perl/" ∧ policy_to_name policy = "" := by
  intro policy h
  have hd : (policySegments policy).drop 4 = [] :=
    List.drop_eq_nil_of_le (by omega)
  constructor
  · unfold policy_to_id
    rw [hd]
    rfl
  · unfold policy_to_name
    rw [hd]
    rfl

/-- Witness for C8 at the concrete two-segment policy `"Foo::Bar"`. -/
theorem short_policy_degenerate_witness :
    policy_to_id "Foo::Bar" = "perl/" ∧ policy_to_name "Foo::Bar" = "" :=
  short_policy_degenerate "Foo::Bar" (by decide)

/-- **C2** — every failure is terminal and no output document exists
unless every stage succeeded: the pipeline yields an `ok` document
exactly when input acquisition, decoding and provenance lookup all
succeed (translation and assembly set every required field and cannot
fail on their own), and the first failing stage's error is the run's
result, with nothing emitted. -/
theorem main_all_or_nothing :
    ∀ (inp : Except String String) (dec : String → Except String PerlCriticReport)
      (vcs : Except String (List VersionControlDetails)),
      ((∃ s, mainModel inp dec vcs = .ok s) ↔
        (∃ t r p, inp = .ok t ∧ dec t = .ok r ∧ vcs = .ok p)) ∧
      (∀ e, inp = .error e → mainModel inp dec vcs = .error e) ∧
      (∀ t e, inp = .ok t → dec t = .error e → mainModel inp dec vcs = .error e) ∧
      (∀ t r e, inp = .ok t → dec t = .ok r → vcs = .error e →
        mainModel inp dec vcs = .error e) := by
  intro inp dec vcs
  cases inp with
  | error e => simp [mainModel]
  | ok text =>
    cases hdec : dec text with
    | error e =>
      refine ⟨by simp [mainModel, hdec], by simp, fun t e2 ht hd => ?_,
        fun t r e2 ht hd hv => ?_⟩
      · injection ht with ht2
        subst ht2
        rw [hdec] at hd
        injection hd with hd2
        subst hd2
        simp [mainModel, hdec]
      · injection ht with ht2
        subst ht2
        rw [hdec] at hd
        exact absurd hd (by simp)
    | ok report =>
      cases vcs with
      | error e =>
        refine ⟨by simp [mainModel, hdec, reportToSarifE, reportToRunE], by simp,
          fun t e2 ht hd => ?_, fun t r e2 ht hd hv => ?_⟩
        · injection ht with ht2
          subst ht2
          rw [hdec] at hd
          exact absurd hd (by simp)
        · injection ht with ht2
          subst ht2
          rw [hdec] at hd
          injection hd with hd2
          subst hd2
          injection hv with hv2
          subst hv2
          simp [mainModel, hdec, reportToSarifE, reportToRunE]
      | ok p =>
        refine ⟨by simp [mainModel, hdec, reportToSarifE, reportToRunE], by simp,
          fun t e2 ht hd => ?_, fun t r e2 ht hd hv => absurd hv (by simp)⟩
        injection ht with ht2
        subst ht2
        rw [hdec] at hd
        exact absurd hd (by simp)

/-- Witness for C2: a failing input stage aborts the run with its error. -/
theorem main_all_or_nothing_witness :
    mainModel (Except.error "io error") (fun _ => Except.ok emptyReport)
      (Except.ok []) = Except.error "io error" :=
  (main_all_or_nothing (Except.error "io error") (fun _ => Except.ok emptyReport)
    (Except.ok [])).2.1 "io error" rfl

/-- **C7** — for every report that translates successfully, the output
run has exactly one result per input violation, in input order: the
lengths agree and the i-th result is the translation of the i-th
violation. -/
theorem run_results_count_order :
    ∀ (r : PerlCriticReport) (vcs : Except String (List VersionControlDetails))
      (run : Run), reportToRunE r vcs = .ok run →
      run.results.length = r.violations.length ∧
      ∀ i : Nat, run.results[i]? = (r.violations[i]?).map violationToResult := by
  intro r vcs run h
  cases vcs with
  | error e => simp [reportToRunE] at h
  | ok p =>
    rw [show reportToRunE r (.ok p) = .ok
      { tool :=
          { driver :=
              { name := "Perl Critic"
                full_name := "Perl::Critic"
                version := r.perl_critic_version
                information_uri := "https://metacpan.org/pod/Perl::Critic"
                rules := r.rules } }
        version_control_provenance := p
        results := r.violations.map violationToResult } from rfl] at h
    injection h with h2
    subst h2
    refine ⟨by simp, fun i => ?_⟩
    simp [List.getElem?_map]

/-- Witness for C7 at the concrete empty report. -/
theorem run_results_count_order_witness :
    emptyRun.results.length = emptyReport.violations.length ∧
    emptyRun.results[0]? = (emptyReport.violations[0]?).map violationToResult := by
  have h := run_results_count_order emptyReport (Except.ok []) emptyRun rfl
  exact ⟨h.1, h.2 0⟩

/-- **C9** — the context start line is `line_number - 1` in `u32`
arithmetic: under the precondition `1 ≤ line_number` (and the `u32` bound)
the subtraction does not underflow and equals the mathematical
`line_number - 1`; the translation produces its single location for every
violation; and at the decoder-accepted `line_number = 0` the wrapping
subtraction leaves the guarded range, giving `2^32 - 1`. -/
theorem context_start_line_u32 :
    (∀ n : Nat, 1 ≤ n → n < u32Mod → u32SubOne n = n - 1) ∧
    (∀ v : Violation, 1 ≤ v.line_number → v.line_number < u32Mod →
      ((violationToResult v).locations.map
        (fun l => l.physical_location.context_region.start_line)) =
        [v.line_number - 1]) ∧
    (∀ v : Violation, (violationToResult v).locations.length = 1) ∧
    u32SubOne 0 = u32Mod - 1 := by
  refine ⟨fun n h1 h2 => u32SubOne_eq h1 h2, ?_, fun v => rfl, by decide⟩
  intro v h1 h2
  simp [violationToResult, u32SubOne_eq h1 h2]

/-- Witness for C9 at the concrete example violation (line 10). -/
theorem context_start_line_u32_witness :
    u32SubOne 10 = 9 ∧
    ((violationToResult exampleViolation).locations.map
      (fun l => l.physical_location.context_region.start_line)) = [9] :=
  ⟨context_start_line_u32.1 10 (by decide) (by decide),
   context_start_line_u32.2.1 exampleViolation (by decide) (by decide)⟩

/-- **C4 counterexample** — the claim quantifies over every violation with
`line_number ≥ 1`, but at the valid `u32` value `line_number = 4294967295`
the context region's end line is 0, not `line_number + 1 = 4294967296`:
the `u32` increment wraps (release semantics; a debug build panics
instead — either way the claimed value is not produced). -/
theorem region_arithmetic_counterexample :
    ((violationToResult overflowViolation).locations.map
      (fun l => l.physical_location.context_region.end_line)) = [0] ∧
    overflowViolation.line_number + 1 = 4294967296 ∧
    (0 : Nat) ≠ 4294967296 := by
  refine ⟨by decide, rfl, by decide⟩

/-- **C4 (amended)** — for every violation with `1 ≤ line_number` whose
`line_number + 1` and source byte length stay below 2^32, the context
region spans lines `line_number - 1` through `line_number + 1` with both
columns 1, and the precise region spans line `line_number` only, from
`column_number` through the byte length of the source line. -/
theorem region_arithmetic_amended :
    ∀ v : Violation, 1 ≤ v.line_number → v.line_number + 1 < u32Mod →
      utf8Len v.source < u32Mod →
      ((violationToResult v).locations.map
        (fun l => l.physical_location.context_region.start_line)) =
        [v.line_number - 1] ∧
      ((violationToResult v).locations.map
        (fun l => l.physical_location.context_region.start_column)) = [1] ∧
      ((violationToResult v).locations.map
        (fun l => l.physical_location.context_region.end_line)) =
        [v.line_number + 1] ∧
      ((violationToResult v).locations.map
        (fun l => l.physical_location.context_region.end_column)) = [1] ∧
      ((violationToResult v).locations.map
        (fun l => l.physical_location.region.start_line)) = [v.line_number] ∧
      ((violationToResult v).locations.map
        (fun l => l.physical_location.region.start_column)) = [v.column_number] ∧
      ((violationToResult v).locations.map
        (fun l => l.physical_location.region.end_line)) = [v.line_number] ∧
      ((violationToResult v).locations.map
        (fun l => l.physical_location.region.end_column)) = [utf8Len v.source] := by
  intro v h1 h2 h3
  refine ⟨?_, rfl, ?_, rfl, rfl, rfl, rfl, ?_⟩
  · simp [violationToResult, u32SubOne_eq h1 (by omega)]
  · simp [violationToResult, u32AddOne_eq h2]
  · simp [violationToResult, Nat.mod_eq_of_lt h3]

/-- Witness for the amended C4 at the spec's example: `line_number = 10`,
`column_number = 4`, `source = "my $x = 1;"` gives context lines 9–11
(columns 1–1) and precise region line 10, columns 4 through 10. -/
theorem region_arithmetic_amended_witness :
    ((violationToResult exampleViolation).locations.map
      (fun l => l.physical_location.context_region.start_line)) = [9] ∧
    ((violationToResult exampleViolation).locations.map
      (fun l => l.physical_location.context_region.start_column)) = [1] ∧
    ((violationToResult exampleViolation).locations.map
      (fun l => l.physical_location.context_region.end_line)) = [11] ∧
    ((violationToResult exampleViolation).locations.map
      (fun l => l.physical_location.context_region.end_column)) = [1] ∧
    ((violationToResult exampleViolation).locations.map
      (fun l => l.physical_location.region.start_line)) = [10] ∧
    ((violationToResult exampleViolation).locations.map
      (fun l => l.physical_location.region.start_column)) = [4] ∧
    ((violationToResult exampleViolation).locations.map
      (fun l => l.physical_location.region.end_line)) = [10] ∧
    ((violationToResult exampleViolation).locations.map
      (fun l => l.physical_location.region.end_column)) = [10] :=
  region_arithmetic_amended exampleViolation (by decide) (by decide) (by decide)

/-- **C10 counterexample** — the claim states that for *every* violation
whose source has only single-byte characters the end column equals the
character count; at a source of 2^32 ASCII characters the `as u32` cast
truncates the byte length to 0, so the end column is 0, not 2^32. -/
theorem precise_end_column_counterexample :
    (∀ c ∈ hugeSource.toList, c.utf8Size = 1) ∧
    ((violationToResult hugeViolation).locations.map
      (fun l => l.physical_location.region.end_column)) = [0] ∧
    hugeSource.length = 4294967296 ∧
    (0 : Nat) ≠ 4294967296 := by
  have htl : hugeSource.toList = List.replicate 4294967296 'a' := rfl
  have hlen : utf8Len hugeSource = 4294967296 := by
    unfold utf8Len
    rw [htl, List.map_replicate, show ('a').utf8Size = 1 from by decide,
      List.sum_replicate]
    simp
  refine ⟨?_, ?_, ?_, by decide⟩
  · intro c hc
    rw [htl] at hc
    rw [(List.mem_replicate.mp hc).2]
    decide
  · rw [result_end_column hugeViolation,
      show hugeViolation.source = hugeSource from rfl, hlen, u32Mod]
  · rw [show hugeSource.length = (List.replicate 4294967296 'a').length from rfl]
    rw [List.length_replicate]

/-- **C10 (amended)** — the precise region's end column is the byte
length of the source reduced modulo 2^32 (the `as u32` cast); whenever the
byte length is below 2^32 and every character of the source is single-byte
UTF-8, it coincides with the character count; and at a concrete violation
with the 2-byte character `é` the end column (2) exceeds the character
count (1). -/
theorem precise_end_column_bytes :
    (∀ v : Violation,
      ((violationToResult v).locations.map
        (fun l => l.physical_location.region.end_column)) =
        [utf8Len v.source % u32Mod]) ∧
    (∀ v : Violation, (∀ c ∈ v.source.toList, c.utf8Size = 1) →
      utf8Len v.source < u32Mod →
      ((violationToResult v).locations.map
        (fun l => l.physical_location.region.end_column)) =
        [v.source.length]) ∧
    ((violationToResult multibyteViolation).locations.map
      (fun l => l.physical_location.region.end_column)) = [2] ∧
    multibyteViolation.source.length = 1 := by
  refine ⟨fun v => rfl, ?_, by decide, by decide⟩
  intro v hc hlt
  have hbytes : utf8Len v.source = v.source.length := by
    rw [show v.source.length = v.source.toList.length from rfl]
    exact sum_map_utf8_one v.source.toList hc
  simp [violationToResult, hbytes, Nat.mod_eq_of_lt (hbytes ▸ hlt)]

/-! ### Association-map lemmas for the rule catalogue (C6) -/

theorem lookup_assocUpsert_self (k : String) (d : ReportingDescriptor)
    (m : List (String × ReportingDescriptor)) :
    List.lookup k (assocUpsert k d m) = some d := by
  induction m with
  | nil => simp [assocUpsert, List.lookup]
  | cons p m ih =>
    obtain ⟨k1, d1⟩ := p
    by_cases h : k1 = k
    · simp [assocUpsert, h, List.lookup]
    · have hb : (k == k1) = false := beq_eq_false_iff_ne.mpr (fun h2 => h h2.symm)
      simp [assocUpsert, h, List.lookup, hb, ih]

theorem lookup_assocUpsert_ne (k k2 : String) (d : ReportingDescriptor)
    (m : List (String × ReportingDescriptor)) (h : k2 ≠ k) :
    List.lookup k2 (assocUpsert k d m) = List.lookup k2 m := by
  have hb : (k2 == k) = false := beq_eq_false_iff_ne.mpr h
  induction m with
  | nil => simp [assocUpsert, List.lookup, hb]
  | cons p m ih =>
    obtain ⟨k1, d1⟩ := p
    by_cases h1 : k1 = k
    · subst h1
      simp [assocUpsert, List.lookup, hb]
    · simp [assocUpsert, h1, List.lookup, ih]

theorem mem_keys_assocUpsert (a k : String) (d : ReportingDescriptor)
    (m : List (String × ReportingDescriptor)) :
    a ∈ (assocUpsert k d m).map Prod.fst ↔ a = k ∨ a ∈ m.map Prod.fst := by
  induction m with
  | nil => simp [assocUpsert]
  | cons p m ih =>
    obtain ⟨k1, d1⟩ := p
    by_cases h : k1 = k
    · subst h
      simp [assocUpsert]
    · rw [show assocUpsert k d ((k1, d1) :: m) = (k1, d1) :: assocUpsert k d m by
        simp [assocUpsert, h]]
      rw [List.map_cons, List.mem_cons, List.map_cons, List.mem_cons, ih]
      tauto

theorem nodup_keys_assocUpsert (k : String) (d : ReportingDescriptor)
    (m : List (String × ReportingDescriptor))
    (h : (m.map Prod.fst).Nodup) :
    ((assocUpsert k d m).map Prod.fst).Nodup := by
  induction m with
  | nil => simp [assocUpsert]
  | cons p m ih =>
    obtain ⟨k1, d1⟩ := p
    rw [List.map_cons, List.nodup_cons] at h
    by_cases h1 : k1 = k
    · subst h1
      rw [show assocUpsert k1 d ((k1, d1) :: m) = (k1, d) :: m by simp [assocUpsert]]
      rw [List.map_cons, List.nodup_cons]
      exact h
    · rw [show assocUpsert k d ((k1, d1) :: m) = (k1, d1) :: assocUpsert k d m by
        simp [assocUpsert, h1]]
      rw [List.map_cons, List.nodup_cons]
      refine ⟨fun h2 => ?_, ih h.2⟩
      rcases (mem_keys_assocUpsert k1 k d m).mp h2 with h3 | h3
      · exact h1 h3
      · exact h.1 h3

theorem mem_assocUpsert_elim (p : String × ReportingDescriptor) (k : String)
    (d : ReportingDescriptor) (m : List (String × ReportingDescriptor))
    (h : p ∈ assocUpsert k d m) : p = (k, d) ∨ p ∈ m := by
  induction m with
  | nil => simpa [assocUpsert] using h
  | cons q m ih =>
    obtain ⟨k1, d1⟩ := q
    by_cases h1 : k1 = k
    · subst h1
      simp [assocUpsert] at h
      tauto
    · simp [assocUpsert, h1] at h
      rcases h with h | h
      · simp [h]
      · rcases ih h with h2 | h2
        · exact Or.inl h2
        · simp [h2]

theorem lookup_isSome_iff_mem_keys (k : String)
    (m : List (String × ReportingDescriptor)) :
    (List.lookup k m).isSome ↔ k ∈ m.map Prod.fst := by
  induction m with
  | nil => simp [List.lookup]
  | cons p m ih =>
    obtain ⟨k1, d1⟩ := p
    rw [List.map_cons, List.mem_cons]
    by_cases h : k = k1
    · simp [List.lookup, h]
    · have hb : (k == k1) = false := beq_eq_false_iff_ne.mpr h
      rw [show List.lookup k ((k1, d1) :: m) = List.lookup k m by
        simp [List.lookup, hb]]
      rw [ih]
      simp [h]

theorem option_map_isSome {α β : Type} (f : α → β) (o : Option α) :
    (o.map f).isSome = o.isSome := by
  cases o <;> rfl

theorem find?_append_or {α : Type} (l1 l2 : List α) (p : α → Bool) :
    (l1 ++ l2).find? p =
      match l1.find? p with
      | some x => some x
      | none => l2.find? p := by
  rw [List.find?_append]
  cases l1.find? p <;> simp [Option.or]

theorem lookup_foldl_rules (vs : List Violation) :
    ∀ (m : List (String × ReportingDescriptor)) (k : String),
      List.lookup k (vs.foldl rulesStep m) =
        match vs.reverse.find? (fun v => policy_to_id v.policy == k) with
        | some v => some (violationDescriptor v)
        | none => List.lookup k m := by
  induction vs with
  | nil => intro m k; rfl
  | cons v vs ih =>
    intro m k
    rw [List.foldl_cons, ih, List.reverse_cons, find?_append_or]
    cases hf : List.find? (fun v => policy_to_id v.policy == k) vs.reverse with
    | some w => rfl
    | none =>
      by_cases h : policy_to_id v.policy = k
      · simp only [List.find?, h, beq_self_eq_true]
        rw [rulesStep, h, lookup_assocUpsert_self]
      · have hb : (policy_to_id v.policy == k) = false := beq_eq_false_iff_ne.mpr h
        simp only [List.find?, hb]
        rw [rulesStep, lookup_assocUpsert_ne _ _ _ _ (fun h2 => h h2.symm)]

theorem lookup_rulesMap (vs : List Violation) (k : String) :
    List.lookup k (rulesMap vs) =
      (vs.reverse.find? (fun v => policy_to_id v.policy == k)).map
        violationDescriptor := by
  rw [rulesMap, lookup_foldl_rules]
  cases vs.reverse.find? (fun v => policy_to_id v.policy == k) <;>
    simp [List.lookup]

theorem nodup_keys_foldl_rules (vs : List Violation) :
    ∀ m : List (String × ReportingDescriptor), (m.map Prod.fst).Nodup →
      ((vs.foldl rulesStep m).map Prod.fst).Nodup := by
  induction vs with
  | nil => intro m h; exact h
  | cons v vs ih =>
    intro m h
    rw [List.foldl_cons]
    exact ih (rulesStep m v) (nodup_keys_assocUpsert _ _ _ h)

theorem mem_foldl_rules (vs : List Violation) :
    ∀ (m : List (String × ReportingDescriptor)) (p : String × ReportingDescriptor),
      p ∈ vs.foldl rulesStep m →
      p ∈ m ∨ ∃ v ∈ vs, p = (policy_to_id v.policy, violationDescriptor v) := by
  induction vs with
  | nil => intro m p h; exact Or.inl h
  | cons v vs ih =>
    intro m p h
    rw [List.foldl_cons] at h
    rcases ih (rulesStep m v) p h with h1 | h1
    · rcases mem_assocUpsert_elim p _ _ m h1 with h2 | h2
      · exact Or.inr ⟨v, by simp, h2⟩
      · exact Or.inl h2
    · obtain ⟨w, hw, hp⟩ := h1
      exact Or.inr ⟨w, by simp [hw], hp⟩

/-- **C6** — the rule catalogue: its derived identifiers are pairwise
distinct (one descriptor per distinct identifier); an identifier is
present exactly when some violation derives it; the descriptor stored for
an identifier is the one of the *last* violation deriving it (map
overwrite semantics); and every descriptor in the catalogue is built from
some input violation, carrying the help URI templated from that
violation's original un-derived policy string. -/
theorem rules_catalogue_dedup :
    ∀ r : PerlCriticReport,
      ((rulesMap r.violations).map Prod.fst).Nodup ∧
      (∀ k : String, k ∈ (rulesMap r.violations).map Prod.fst ↔
        ∃ v ∈ r.violations, policy_to_id v.policy = k) ∧
      (∀ k : String, List.lookup k (rulesMap r.violations) =
        (r.violations.reverse.find? (fun v => policy_to_id v.policy == k)).map
          violationDescriptor) ∧
      (∀ d ∈ r.rules, ∃ v ∈ r.violations, d = violationDescriptor v ∧
        d.help_uri = "https://metacpan.org/pod/" ++ v.policy ∧
        d.id = policy_to_id v.policy) := by
  intro r
  refine ⟨nodup_keys_foldl_rules r.violations [] (by simp), ?_, ?_, ?_⟩
  · intro k
    rw [← lookup_isSome_iff_mem_keys, lookup_rulesMap, option_map_isSome,
      List.find?_isSome]
    constructor
    · rintro ⟨v, hv, hp⟩
      exact ⟨v, List.mem_reverse.mp hv, beq_iff_eq.mp hp⟩
    · rintro ⟨v, hv, hp⟩
      exact ⟨v, List.mem_reverse.mpr hv, beq_iff_eq.mpr hp⟩
  · intro k
    exact lookup_rulesMap r.violations k
  · intro d hd
    rw [PerlCriticReport.rules, List.mem_map] at hd
    obtain ⟨p, hp, hpd⟩ := hd
    rcases mem_foldl_rules r.violations [] p hp with h1 | h1
    · simp at h1
    · obtain ⟨v, hv, hpv⟩ := h1
      refine ⟨v, hv, ?_, ?_, ?_⟩
      · rw [← hpd, hpv]
      · rw [← hpd, hpv]
        rfl
      · rw [← hpd, hpv]
        rfl

/-- Witness for C6 at a concrete report with two violations whose
distinct policies derive the same identifier: the catalogue descriptor is
built from one of the input violations, with the help URI of the original
policy string. -/
theorem rules_catalogue_dedup_witness :
    ∃ v ∈ collidingReport.violations,
      violationDescriptor collidingViolationB = violationDescriptor v ∧
      (violationDescriptor collidingViolationB).help_uri =
        "https://metacpan.org/pod/" ++ v.policy ∧
      (violationDescriptor collidingViolationB).id = policy_to_id v.policy :=
  (rules_catalogue_dedup collidingReport).2.2.2
    (violationDescriptor collidingViolationB) (by decide)

/-- Witness for the amended C10 at the example violation (all-ASCII
source of 10 characters, hence end column 10). -/
theorem precise_end_column_bytes_witness :
    ((violationToResult exampleViolation).locations.map
      (fun l => l.physical_location.region.end_column)) =
      [exampleViolation.source.length] :=
  precise_end_column_bytes.2.1 exampleViolation (by decide) (by decide)
